import Mathlib

/-!
Shallow embedding of the Trill runtime reference-counting implementation
(Sources/Runtime/arc.cpp).

The C++ code manages heap objects through a hidden header: trill_allocateIndirectType
allocates sizeof(RefCountBox *) + size bytes, stores a pointer to a freshly
new-allocated RefCountBox (retain count, deinitializer, mutex) in the first
pointer-sized slot, and hands out the address right after that slot (the payload).
RefCounted(void *) recovers the slot by subtracting the pointer width from the
payload address; a null value in the slot is the use-after-deallocation sentinel.

The embedding keeps an explicit memory state: slot memory, the heap of box
headers, the set of outer allocations (never freed by dealloc), a fresh-address
counter, and a trace of deinitializer invocations. Machine integers are Nat with
an explicit modulus where the uint32_t arithmetic can wrap. Fatal errors
(trill_fatalError, which never returns) are a terminal outcome carrying the
memory state at the moment of the report and the reported message. Reads of
unmapped memory, which are undefined behaviour in the C++, are a separate
`stuck` outcome. The mutex is not represented in the sequential model; the
interleaving machine at the end of the definitions models it explicitly for the
concurrency claim.
-/

namespace Trill

/-- Width in bytes of a pointer, sizeof(RefCountBox **) in the C++ source. -/
def ptrWidth : Nat := 8

/-- Modulus of the uint32_t retain count field. -/
def uint32Mod : Nat := 2 ^ 32

/-- Largest value of uint32_t: the bound std::numeric_limits checked by
RefCounted::retain before incrementing. -/
def uint32Max : Nat := 2 ^ 32 - 1

/-- RefCountBox (arc.cpp): the retain count (uint32_t, modelled as Nat kept
below uint32Mod) and the nullable deinitializer pointer. The type δ stands for
the identities of deinitializer functions; the mutex member is the lock the
interleaving machine below makes explicit and the sequential model elides. -/
structure RefCountBox (δ : Type) where
  retainCount : Nat
  deinit : Option δ
  deriving DecidableEq

/-- The memory state of the runtime.

slot: maps an address to the content of the back-link slot stored there, when
that address holds such a slot; `some none` is the null sentinel written by
RefCounted::dealloc, `some (some a)` a pointer to the box header at address a,
and `none` means the address does not hold a slot (dereferencing it is stuck).

boxes: the heap of RefCountBox headers created by `new` and destroyed by
`delete`; `none` means no live header at that address.

outerLive: which outer allocations obtained from trill_alloc are still
allocated (dealloc never frees them).

next: fresh-address counter standing for the allocator handing out fresh,
disjoint regions.

events: the trace of deinitializer invocations, each recorded as the pair of
the deinitializer identity and the payload address passed to it. -/
structure State (δ : Type) where
  slot : Nat → Option (Option Nat)
  boxes : Nat → Option (RefCountBox δ)
  outerLive : Nat → Bool
  next : Nat
  events : List (δ × Nat)

/-- The four calls to trill_fatalError in arc.cpp, one constructor per call
site. -/
inductive FatalErr where
  | useAfterDealloc (value : Nat)
  | retainOverflow
  | releaseUnderflow
  | deallocWithPositiveCount
  deriving DecidableEq

/-- The exact message string each call site passes to trill_fatalError. -/
def FatalErr.message : FatalErr → String
  | .useAfterDealloc v => "object (" ++ toString v ++ ") used after deallocation"
  | .retainOverflow => "retain count overflow"
  | .releaseUnderflow => "attempting to release object with retain count 0"
  | .deallocWithPositiveCount => "object deallocated with retain count > 0"

/-- Outcome of running one runtime operation: normal return with the new
memory state and the returned value; a trill_fatalError report, which never
returns, carrying the memory state at the moment of the report; or stuck,
meaning the C++ would have dereferenced unmapped memory (undefined
behaviour). -/
inductive Res (δ : Type) (α : Type) where
  | ok (s : State δ) (a : α)
  | fatal (s : State δ) (err : FatalErr)
  | stuck

/-- Message of a fatal outcome, if any. -/
def Res.fatalMsg {δ α : Type} : Res δ α → Option String
  | .fatal _ e => some e.message
  | _ => none

/-- Error of a fatal outcome, if any. -/
def Res.fatalErr {δ α : Type} : Res δ α → Option FatalErr
  | .fatal _ e => some e
  | _ => none

/-- Deinitializer-invocation trace at the end of an outcome (normal or at the
moment of a fatal report). -/
def Res.finalEvents {δ α : Type} : Res δ α → Option (List (δ × Nat))
  | .ok s _ => some s.events
  | .fatal s _ => some s.events
  | .stuck => none

namespace RefCounted

variable {δ : Type} {α : Type}

/-- RefCounted(void *boxedValue): boxPtr is the payload address minus the
pointer width. -/
def boxPtr (value : Nat) : Nat := value - ptrWidth

/-- The common access pattern of every operation: RefCounted::box()
dereferences the back-link slot, RefCounted::checkForUseAfterDealloc reports
fatally when the dereferenced value is the null sentinel, and on success the
operation continues with the box header found at the stored address. -/
def withLiveBox (s : State δ) (value : Nat)
    (k : Nat → RefCountBox δ → Res δ α) : Res δ α :=
  match s.slot (boxPtr value) with
  | none => .stuck
  | some none => .fatal s (.useAfterDealloc value)
  | some (some a) =>
    match s.boxes a with
    | none => .stuck
    | some b => k a b

/-- RefCounted(size_t size, trill_deinitializer_t deinit): allocates
ptrWidth + size bytes at a fresh address, news a RefCountBox with count 0 and
the given deinitializer at a fresh disjoint address, stores the box address in
the first slot and exposes the address right after the slot as the payload.
Returns the new memory state together with the payload address. -/
def create (s : State δ) (size : Nat) (deinit : Option δ) : State δ × Nat :=
  let boxFullPtr := s.next
  let value := boxFullPtr + ptrWidth
  let boxAddr := boxFullPtr + ptrWidth + size
  ({ s with
      slot := Function.update s.slot boxFullPtr (some (some boxAddr)),
      boxes := Function.update s.boxes boxAddr (some ⟨0, deinit⟩),
      outerLive := Function.update s.outerLive boxFullPtr true,
      next := boxAddr + 1 },
   value)

/-- RefCounted::retainCount(): resolves the box and returns its count. -/
def retainCount (s : State δ) (value : Nat) : Res δ Nat :=
  withLiveBox s value fun _ b => .ok s b.retainCount

/-- RefCounted::isUniquelyReferenced(): resolves the box and returns whether
its count is exactly one. -/
def isUniquelyReferenced (s : State δ) (value : Nat) : Res δ Bool :=
  withLiveBox s value fun _ b => .ok s (b.retainCount == 1)

/-- RefCounted::retain(): resolves the box, reports fatally when the count is
at the uint32_t maximum, otherwise increments the count (uint32_t arithmetic,
hence the modulus). -/
def retain (s : State δ) (value : Nat) : Res δ Unit :=
  withLiveBox s value fun a b =>
    if b.retainCount = uint32Max then
      .fatal s .retainOverflow
    else
      let b' : RefCountBox δ := { b with retainCount := (b.retainCount + 1) % uint32Mod }
      .ok { s with boxes := Function.update s.boxes a (some b') } ()

/-- RefCounted::dealloc(): re-resolves the box, reports fatally when the count
is still positive, invokes the deinitializer with the payload address when one
was supplied, deletes the box header, and writes the null sentinel into the
back-link slot. The outer allocation is not touched. -/
def dealloc (s : State δ) (value : Nat) : Res δ Unit :=
  withLiveBox s value fun a b =>
    if 0 < b.retainCount then
      .fatal s .deallocWithPositiveCount
    else
      let s1 := match b.deinit with
        | some d => { s with events := s.events ++ [(d, value)] }
        | none => s
      .ok { s1 with
              boxes := Function.update s1.boxes a none,
              slot := Function.update s1.slot (boxPtr value) (some none) } ()

/-- RefCounted::release(): resolves the box, reports fatally when the count is
already 0, otherwise decrements it; when the decremented count is 0 the object
is deallocated, otherwise the operation returns with the object still live. -/
def release (s : State δ) (value : Nat) : Res δ Unit :=
  withLiveBox s value fun a b =>
    if b.retainCount = 0 then
      .fatal s .releaseUnderflow
    else
      let b' : RefCountBox δ := { b with retainCount := b.retainCount - 1 }
      let s' := { s with boxes := Function.update s.boxes a (some b') }
      if b'.retainCount = 0 then dealloc s' value
      else .ok s' ()

end RefCounted

/-- trill_allocateIndirectType: builds a RefCounted for the size and
deinitializer and returns its payload address (paired here with the new memory
state). -/
def trill_allocateIndirectType {δ : Type} (s : State δ) (size : Nat)
    (deinit : Option δ) : State δ × Nat :=
  RefCounted.create s size deinit

/-- trill_retain: wraps the payload address and retains it. -/
def trill_retain {δ : Type} (s : State δ) (value : Nat) : Res δ Unit :=
  RefCounted.retain s value

/-- trill_release: wraps the payload address and releases it. -/
def trill_release {δ : Type} (s : State δ) (value : Nat) : Res δ Unit :=
  RefCounted.release s value

/-- trill_isUniquelyReferenced: wraps the payload address and returns 1 or 0
as a uint8_t. -/
def trill_isUniquelyReferenced {δ : Type} (s : State δ) (value : Nat) :
    Res δ Nat :=
  match RefCounted.isUniquelyReferenced s value with
  | .ok s' b => .ok s' (if b then 1 else 0)
  | .fatal s' e => .fatal s' e
  | .stuck => .stuck

/-- N successive trill_retain calls on the same payload address, stopping at
the first fatal report. -/
def retainN {δ : Type} (s : State δ) (value : Nat) : Nat → Res δ Unit
  | 0 => .ok s ()
  | n + 1 =>
    match RefCounted.retain s value with
    | .ok s' _ => retainN s' value n
    | .fatal s' e => .fatal s' e
    | .stuck => .stuck

/-- N successive trill_release calls on the same payload address, stopping at
the first fatal report. -/
def releaseN {δ : Type} (s : State δ) (value : Nat) : Nat → Res δ Unit
  | 0 => .ok s ()
  | n + 1 =>
    match RefCounted.release s value with
    | .ok s' _ => releaseN s' value n
    | .fatal s' e => .fatal s' e
    | .stuck => .stuck

/-- The empty initial memory state. -/
def initState {δ : Type} : State δ :=
  { slot := fun _ => none
    boxes := fun _ => none
    outerLive := fun _ => false
    next := 0
    events := [] }

/-- A one-object demo state used by the concrete witnesses: a back-link slot at
address 0 pointing at a box header at address 100 whose count is c, payload
address 8. -/
def demoState (c : Nat) : State Unit :=
  { slot := fun p => if p = 0 then some (some 100) else none
    boxes := fun p => if p = 100 then some ⟨c, some ()⟩ else none
    outerLive := fun p => p = 0
    next := 200
    events := [] }

/-- Demo state whose back-link slot already holds the null sentinel, as left
behind by dealloc. -/
def deadState : State Unit :=
  { slot := fun p => if p = 0 then some none else none
    boxes := fun _ => none
    outerLive := fun p => p = 0
    next := 200
    events := [] }

/-! Interleaving machine for concurrent retains on one box.

RefCounted::retain protects its read-check-increment of the retain count with
std::lock_guard on the mutex of the box. The machine below makes the lock and
the separate read and write of the count explicit: each thread runs the body of
retain as four machine steps (acquire the lock, read the count, check the
overflow bound and write the incremented value, release the lock), and a
scheduler interleaves the threads arbitrarily. A thread can acquire the lock
only when no other thread holds it, exactly the guarantee the mutex gives. -/

/-- Program counter of one thread executing RefCounted::retain on the shared
box. -/
inductive TState where
  | ready
  | locked
  | gotValue (c : Nat)
  | wrote
  | done
  deriving DecidableEq

/-- Thread states in which the thread holds the mutex of the box. -/
def TState.holding : TState → Bool
  | .locked => true
  | .gotValue _ => true
  | .wrote => true
  | _ => false

/-- A machine configuration: the retain count of the shared box, whether its
mutex is held, the state of every thread, and whether trill_fatalError has been
reached. -/
structure Cfg where
  retainCount : Nat
  lockHeld : Bool
  threads : List TState
  fatal : Bool
  deriving DecidableEq

/-- One interleaving step: some thread advances through the body of
RefCounted::retain. acquire models the lock_guard taking the mutex (possible
only while no thread holds it); read models loading the count; writeOk models
the overflow comparison failing followed by the increment (uint32_t
arithmetic); overflow models the comparison succeeding and the call to
trill_fatalError, which terminates the process; unlock models the lock_guard
destructor returning the mutex. No step leaves a fatal configuration. -/
inductive Step : Cfg → Cfg → Prop where
  | acquire (cnt : Nat) (l r : List TState) :
      Step ⟨cnt, false, l ++ .ready :: r, false⟩
           ⟨cnt, true, l ++ .locked :: r, false⟩
  | read (cnt : Nat) (l r : List TState) :
      Step ⟨cnt, true, l ++ .locked :: r, false⟩
           ⟨cnt, true, l ++ .gotValue cnt :: r, false⟩
  | writeOk (cnt v : Nat) (l r : List TState) (h : v ≠ uint32Max) :
      Step ⟨cnt, true, l ++ .gotValue v :: r, false⟩
           ⟨(v + 1) % uint32Mod, true, l ++ .wrote :: r, false⟩
  | overflow (cnt : Nat) (l r : List TState) :
      Step ⟨cnt, true, l ++ .gotValue uint32Max :: r, false⟩
           ⟨cnt, true, l ++ .gotValue uint32Max :: r, true⟩
  | unlock (cnt : Nat) (l r : List TState) :
      Step ⟨cnt, true, l ++ .wrote :: r, false⟩
           ⟨cnt, false, l ++ .done :: r, false⟩

/-- Zero or more interleaving steps. -/
def Reaches : Cfg → Cfg → Prop := Relation.ReflTransGen Step

/-- Initial configuration for the concurrency scenario: a freshly allocated,
already-once-retained object (count 1, mutex free) and T threads each about to
call retain once. -/
def initCfg (T : Nat) : Cfg :=
  { retainCount := 1, lockHeld := false
    threads := List.replicate T .ready, fatal := false }

/-- The configuration in which the sequential schedule of the overflow
counterexample aborts: with 4294967295 threads, after 4294967294 of them have
finished, the count is at the uint32_t maximum and the next thread reads it
and reports retain count overflow. -/
def overflowCfg : Cfg :=
  { retainCount := uint32Max, lockHeld := true
    threads := List.replicate 4294967294 .done ++ [.gotValue uint32Max]
    fatal := true }

/-- Whether a thread has finished its retain call. -/
def TState.isDone : TState → Bool
  | .done => true
  | _ => false

/-- Number of threads that have finished their retain call. -/
def doneCount (ts : List TState) : Nat := ts.countP (fun t => t.isDone)

/-- Number of threads currently holding the mutex of the box. -/
def holdCount (ts : List TState) : Nat := ts.countP (fun t => t.holding)

/-- Invariant of the interleaving machine: no fatal report has happened, the
thread count is T, the mutex is held by exactly one thread or by none in
accordance with the lock flag, and the retain count is determined by the
progress of the threads: 1 plus the number of finished threads, except that a
thread past its write has already contributed its increment; a thread that has
read the count holds exactly the current count. -/
def Inv (T : Nat) (c : Cfg) : Prop :=
  c.fatal = false ∧
  c.threads.length = T ∧
  (c.lockHeld = true → holdCount c.threads = 1) ∧
  (c.lockHeld = false → holdCount c.threads = 0) ∧
  (c.lockHeld = false → c.retainCount = 1 + doneCount c.threads) ∧
  (∀ t ∈ c.threads, t = TState.locked →
    c.retainCount = 1 + doneCount c.threads) ∧
  (∀ t ∈ c.threads, ∀ v, t = TState.gotValue v →
    v = c.retainCount ∧ c.retainCount = 1 + doneCount c.threads) ∧
  (∀ t ∈ c.threads, t = TState.wrote →
    c.retainCount = 2 + doneCount c.threads)

/-! Basic lemmas about the operations. -/

variable {δ : Type}

theorem withLiveBox_live {α : Type} (s : State δ) (v a : Nat) (b : RefCountBox δ)
    (hs : s.slot (v - ptrWidth) = some (some a)) (hb : s.boxes a = some b)
    (k : Nat → RefCountBox δ → Res δ α) :
    RefCounted.withLiveBox s v k = k a b := by
  simp only [RefCounted.withLiveBox, RefCounted.boxPtr, hs, hb]

theorem withLiveBox_dead {α : Type} (s : State δ) (v : Nat)
    (hs : s.slot (v - ptrWidth) = some none)
    (k : Nat → RefCountBox δ → Res δ α) :
    RefCounted.withLiveBox s v k = .fatal s (.useAfterDealloc v) := by
  simp only [RefCounted.withLiveBox, RefCounted.boxPtr, hs]

theorem retain_overflow (s : State δ) (v a : Nat) (b : RefCountBox δ)
    (hs : s.slot (v - ptrWidth) = some (some a)) (hb : s.boxes a = some b)
    (hc : b.retainCount = uint32Max) :
    RefCounted.retain s v = .fatal s .retainOverflow := by
  unfold RefCounted.retain
  rw [withLiveBox_live s v a b hs hb, if_pos hc]

theorem retain_ok (s : State δ) (v a : Nat) (b : RefCountBox δ)
    (hs : s.slot (v - ptrWidth) = some (some a)) (hb : s.boxes a = some b)
    (hc : b.retainCount ≠ uint32Max) :
    RefCounted.retain s v =
      .ok { s with boxes := (Function.update s.boxes a
              (some { b with retainCount := (b.retainCount + 1) % uint32Mod })) } () := by
  unfold RefCounted.retain
  rw [withLiveBox_live s v a b hs hb, if_neg hc]

theorem release_underflow (s : State δ) (v a : Nat) (b : RefCountBox δ)
    (hs : s.slot (v - ptrWidth) = some (some a)) (hb : s.boxes a = some b)
    (hc : b.retainCount = 0) :
    RefCounted.release s v = .fatal s .releaseUnderflow := by
  unfold RefCounted.release
  rw [withLiveBox_live s v a b hs hb, if_pos hc]

theorem release_ok (s : State δ) (v a : Nat) (b : RefCountBox δ)
    (hs : s.slot (v - ptrWidth) = some (some a)) (hb : s.boxes a = some b)
    (h0 : b.retainCount ≠ 0) (h1 : b.retainCount - 1 ≠ 0) :
    RefCounted.release s v =
      .ok { s with boxes := (Function.update s.boxes a
              (some { b with retainCount := b.retainCount - 1 })) } () := by
  unfold RefCounted.release
  rw [withLiveBox_live s v a b hs hb, if_neg h0]
  exact if_neg h1

theorem dealloc_ok (s : State δ) (v a : Nat) (b : RefCountBox δ)
    (hs : s.slot (v - ptrWidth) = some (some a)) (hb : s.boxes a = some b)
    (hc : b.retainCount = 0) :
    RefCounted.dealloc s v =
      .ok { s with
              boxes := Function.update s.boxes a none,
              slot := Function.update s.slot (v - ptrWidth) (some none),
              events := s.events ++
                (match b.deinit with | some d => [(d, v)] | none => []) } () := by
  unfold RefCounted.dealloc
  rw [withLiveBox_live s v a b hs hb, if_neg (by omega)]
  cases hd : b.deinit with
  | none => simp only [RefCounted.boxPtr, List.append_nil]
  | some d => simp only [RefCounted.boxPtr]

theorem release_to_zero (s : State δ) (v a : Nat) (b : RefCountBox δ)
    (hs : s.slot (v - ptrWidth) = some (some a)) (hb : s.boxes a = some b)
    (hc : b.retainCount = 1) :
    RefCounted.release s v =
      .ok { s with
              boxes := Function.update s.boxes a none,
              slot := Function.update s.slot (v - ptrWidth) (some none),
              events := s.events ++
                (match b.deinit with | some d => [(d, v)] | none => []) } () := by
  have hstep : RefCounted.release s v =
      RefCounted.dealloc
        { s with boxes := (Function.update s.boxes a
            (some { b with retainCount := b.retainCount - 1 })) } v := by
    unfold RefCounted.release
    rw [withLiveBox_live s v a b hs hb, if_neg (by omega)]
    simp [hc]
  rw [hstep,
    dealloc_ok
      { s with boxes := (Function.update s.boxes a
          (some { b with retainCount := b.retainCount - 1 })) }
      v a { b with retainCount := b.retainCount - 1 } hs
      (Function.update_same a _ s.boxes) (by simp [hc])]
  simp [Function.update_idem]

theorem create_live (s : State δ) (size : Nat) (d : Option δ) :
    (RefCounted.create s size d).2 = s.next + ptrWidth ∧
    (RefCounted.create s size d).1.slot
        ((RefCounted.create s size d).2 - ptrWidth) =
      some (some (s.next + ptrWidth + size)) ∧
    (RefCounted.create s size d).1.boxes (s.next + ptrWidth + size) =
      some ⟨0, d⟩ ∧
    (RefCounted.create s size d).1.events = s.events := by
  unfold RefCounted.create
  refine ⟨rfl, ?_, ?_, rfl⟩
  · rw [Nat.add_sub_cancel]
    simp
  · simp

theorem release_fatal_cases (s : State δ) (v : Nat) (s' : State δ) (e : FatalErr)
    (h : RefCounted.release s v = .fatal s' e) :
    e = .useAfterDealloc v ∨ e = .releaseUnderflow := by
  cases hslot : s.slot (v - ptrWidth) with
  | none =>
    unfold RefCounted.release RefCounted.withLiveBox RefCounted.boxPtr at h
    rw [hslot] at h
    simp at h
  | some o =>
    cases o with
    | none =>
      unfold RefCounted.release at h
      rw [withLiveBox_dead s v hslot] at h
      injection h with h1 h2
      exact Or.inl h2.symm
    | some a =>
      cases hbox : s.boxes a with
      | none =>
        unfold RefCounted.release RefCounted.withLiveBox RefCounted.boxPtr at h
        rw [hslot] at h
        simp only [hbox] at h
        simp at h
      | some b =>
        unfold RefCounted.release at h
        rw [withLiveBox_live s v a b hslot hbox] at h
        by_cases h0 : b.retainCount = 0
        · rw [if_pos h0] at h
          injection h with h1 h2
          exact Or.inr h2.symm
        · rw [if_neg h0] at h
          by_cases h1 : b.retainCount - 1 = 0
          · rw [if_pos (show ({ b with retainCount := b.retainCount - 1 } :
                RefCountBox δ).retainCount = 0 from h1)] at h
            rw [dealloc_ok
                { s with boxes := (Function.update s.boxes a
                    (some { b with retainCount := b.retainCount - 1 })) }
                v a { b with retainCount := b.retainCount - 1 }
                hslot (Function.update_same a _ s.boxes) h1] at h
            simp at h
          · rw [if_neg (show ¬ ({ b with retainCount := b.retainCount - 1 } :
                RefCountBox δ).retainCount = 0 from h1)] at h
            simp at h

theorem uaf_all_ops (s : State δ) (v : Nat)
    (hs : s.slot (v - ptrWidth) = some none) :
    trill_retain s v = .fatal s (.useAfterDealloc v) ∧
    trill_release s v = .fatal s (.useAfterDealloc v) ∧
    trill_isUniquelyReferenced s v = .fatal s (.useAfterDealloc v) ∧
    RefCounted.retainCount s v = .fatal s (.useAfterDealloc v) := by
  have hu : RefCounted.isUniquelyReferenced s v = .fatal s (.useAfterDealloc v) := by
    unfold RefCounted.isUniquelyReferenced
    exact withLiveBox_dead s v hs _
  refine ⟨?_, ?_, ?_, ?_⟩
  · unfold trill_retain RefCounted.retain
    exact withLiveBox_dead s v hs _
  · unfold trill_release RefCounted.release
    exact withLiveBox_dead s v hs _
  · unfold trill_isUniquelyReferenced
    rw [hu]
  · unfold RefCounted.retainCount
    exact withLiveBox_dead s v hs _

theorem retainN_ok (n : Nat) : ∀ (s : State δ) (v a c : Nat) (dd : Option δ),
    s.slot (v - ptrWidth) = some (some a) →
    s.boxes a = some ⟨c, dd⟩ →
    c + n ≤ uint32Max →
    ∃ s', retainN s v n = .ok s' () ∧
      s'.slot = s.slot ∧ s'.boxes a = some ⟨c + n, dd⟩ ∧
      s'.events = s.events ∧ s'.outerLive = s.outerLive ∧ s'.next = s.next ∧
      (∀ x, x ≠ a → s'.boxes x = s.boxes x) := by
  induction n with
  | zero =>
    intro s v a c dd hs hb hbound
    exact ⟨s, rfl, rfl, hb, rfl, rfl, rfl, fun x hx => rfl⟩
  | succ n ih =>
    intro s v a c dd hs hb hbound
    have hne : (⟨c, dd⟩ : RefCountBox δ).retainCount ≠ uint32Max := by
      simp only []
      omega
    have hmod : (c + 1) % uint32Mod = c + 1 := by
      apply Nat.mod_eq_of_lt
      have hlt : uint32Max < uint32Mod := by norm_num [uint32Max, uint32Mod]
      omega
    have hr := retain_ok s v a ⟨c, dd⟩ hs hb hne
    obtain ⟨s', h1, h2, h3, h4, h5, h6, h7⟩ :=
      ih { s with boxes := (Function.update s.boxes a
            (some ⟨(c + 1) % uint32Mod, dd⟩)) } v a (c + 1) dd hs
        (by simp [hmod]) (by omega)
    refine ⟨s', ?_, h2, ?_, h4, h5, h6, ?_⟩
    · simp only [retainN]
      rw [hr]
      exact h1
    · rw [h3]
      have hadd : c + 1 + n = c + (n + 1) := by omega
      rw [hadd]
    · intro x hx
      exact (h7 x hx).trans (Function.update_noteq hx _ s.boxes)

theorem releaseN_ok (n : Nat) : ∀ (s : State δ) (v a c : Nat) (dd : Option δ),
    s.slot (v - ptrWidth) = some (some a) →
    s.boxes a = some ⟨c, dd⟩ →
    n < c →
    ∃ s', releaseN s v n = .ok s' () ∧
      s'.slot = s.slot ∧ s'.boxes a = some ⟨c - n, dd⟩ ∧
      s'.events = s.events ∧ s'.outerLive = s.outerLive ∧ s'.next = s.next ∧
      (∀ x, x ≠ a → s'.boxes x = s.boxes x) := by
  induction n with
  | zero =>
    intro s v a c dd hs hb hbound
    exact ⟨s, rfl, rfl, hb, rfl, rfl, rfl, fun x hx => rfl⟩
  | succ n ih =>
    intro s v a c dd hs hb hbound
    have h0 : (⟨c, dd⟩ : RefCountBox δ).retainCount ≠ 0 := by
      simp only []
      omega
    have h1 : (⟨c, dd⟩ : RefCountBox δ).retainCount - 1 ≠ 0 := by
      simp only []
      omega
    have hr := release_ok s v a ⟨c, dd⟩ hs hb h0 h1
    obtain ⟨s', g1, g2, g3, g4, g5, g6, g7⟩ :=
      ih { s with boxes := (Function.update s.boxes a
            (some ⟨c - 1, dd⟩)) } v a (c - 1) dd hs
        (by simp) (by omega)
    refine ⟨s', ?_, g2, ?_, g4, g5, g6, ?_⟩
    · simp only [releaseN]
      rw [hr]
      exact g1
    · rw [g3]
      have hsub : c - 1 - n = c - (n + 1) := by omega
      rw [hsub]
    · intro x hx
      exact (g7 x hx).trans (Function.update_noteq hx _ s.boxes)

theorem retainN_split (m n : Nat) : ∀ (s : State δ) (v : Nat),
    retainN s v (m + n) =
      match retainN s v m with
      | .ok s' _ => retainN s' v n
      | .fatal s' e => .fatal s' e
      | .stuck => .stuck := by
  induction m with
  | zero =>
    intro s v
    rw [Nat.zero_add]
    rfl
  | succ m ih =>
    intro s v
    rw [Nat.succ_add]
    show (match RefCounted.retain s v with
      | .ok s' _ => retainN s' v (m + n)
      | .fatal s' e => .fatal s' e
      | .stuck => .stuck) = _
    cases hr : RefCounted.retain s v with
    | ok s1 u =>
      simp only [retainN, hr]
      exact ih s1 v
    | fatal s1 e => simp only [retainN, hr]
    | stuck => simp only [retainN, hr]

/-! The claim theorems. -/

/-- C2: for every live object, release reports the exact underflow message
fatally, without mutating anything, when the count is 0 at entry, and
otherwise decrements the count by exactly 1; when the decremented count is
nonzero the object remains live with no other state change. -/
theorem claim2_release_semantics (s : State δ) (v a : Nat) (b : RefCountBox δ)
    (hs : s.slot (v - ptrWidth) = some (some a)) (hb : s.boxes a = some b) :
    (b.retainCount = 0 →
      RefCounted.release s v = .fatal s .releaseUnderflow ∧
      FatalErr.message .releaseUnderflow =
        "attempting to release object with retain count 0") ∧
    (b.retainCount ≠ 0 → b.retainCount - 1 ≠ 0 →
      ∃ s', RefCounted.release s v = .ok s' () ∧
        s'.boxes a = some { b with retainCount := b.retainCount - 1 } ∧
        s'.slot = s.slot ∧ s'.events = s.events ∧
        s'.outerLive = s.outerLive ∧ s'.next = s.next ∧
        ∀ x, x ≠ a → s'.boxes x = s.boxes x) ∧
    (b.retainCount = 1 →
      ∃ s', RefCounted.release s v = .ok s' () ∧
        s'.boxes a = none ∧ s'.slot (v - ptrWidth) = some none) := by
  refine ⟨fun hc => ⟨release_underflow s v a b hs hb hc, rfl⟩,
    fun h0 h1 => ?_, fun hc => ?_⟩
  · refine ⟨_, release_ok s v a b hs hb h0 h1, ?_, rfl, rfl, rfl, rfl,
      fun x hx => Function.update_noteq hx _ s.boxes⟩
    exact Function.update_same a _ s.boxes
  · refine ⟨_, release_to_zero s v a b hs hb hc, ?_, ?_⟩
    · exact Function.update_same a _ s.boxes
    · exact Function.update_same _ _ s.slot

/-- C1 (amended): for every object allocated with a non-null destructor d and
every N with 1 ≤ N ≤ 4294967295, performing N retain calls followed by N
release calls on the payload address invokes d exactly once, with the payload
address as its argument, during the final release, and never during any
earlier retain or release. (For N ≥ 4294967296 the run instead aborts with the
retain count overflow report before any release happens, see the
counterexample.) -/
theorem claim1_destructor_once (s : State δ) (size : Nat) (d : δ) (N : Nat)
    (hN1 : 1 ≤ N) (hN2 : N ≤ uint32Max)
    (s0 : State δ) (P : Nat)
    (halloc : trill_allocateIndirectType s size (some d) = (s0, P)) :
    (∀ k, k ≤ N → ∃ sk, retainN s0 P k = .ok sk () ∧ sk.events = s.events) ∧
    ∃ s1, retainN s0 P N = .ok s1 () ∧
      (∀ k, k ≤ N - 1 →
        ∃ sk, releaseN s1 P k = .ok sk () ∧ sk.events = s.events) ∧
      ∃ s2, releaseN s1 P (N - 1) = .ok s2 () ∧ s2.events = s.events ∧
        ∃ s3, RefCounted.release s2 P = .ok s3 () ∧
          s3.events = s.events ++ [(d, P)] := by
  have h1 : (RefCounted.create s size (some d)).1 = s0 := congrArg Prod.fst halloc
  have h2 : (RefCounted.create s size (some d)).2 = P := congrArg Prod.snd halloc
  subst h1
  subst h2
  obtain ⟨hP, hslot, hbox, hev⟩ := create_live s size (some d)
  constructor
  · intro k hk
    obtain ⟨sk, r1, r2, r3, r4, r5, r6, r7⟩ :=
      retainN_ok k _ _ _ 0 (some d) hslot hbox (by omega)
    exact ⟨sk, r1, r4.trans hev⟩
  · obtain ⟨s1, r1, r2, r3, r4, r5, r6, r7⟩ :=
      retainN_ok N _ _ _ 0 (some d) hslot hbox (by omega)
    have hslot1 : s1.slot ((RefCounted.create s size (some d)).2 - ptrWidth) =
        some (some (s.next + ptrWidth + size)) := by
      rw [r2]
      exact hslot
    have hbox1 : s1.boxes (s.next + ptrWidth + size) = some ⟨N, some d⟩ := by
      rw [r3]
      norm_num
    refine ⟨s1, r1, ?_, ?_⟩
    · intro k hk
      obtain ⟨sk, q1, q2, q3, q4, q5, q6, q7⟩ :=
        releaseN_ok k s1 _ _ N (some d) hslot1 hbox1 (by omega)
      exact ⟨sk, q1, q4.trans (r4.trans hev)⟩
    · obtain ⟨s2, q1, q2, q3, q4, q5, q6, q7⟩ :=
        releaseN_ok (N - 1) s1 _ _ N (some d) hslot1 hbox1 (by omega)
      have hev2 : s2.events = s.events := q4.trans (r4.trans hev)
      have hslot2 : s2.slot ((RefCounted.create s size (some d)).2 - ptrWidth) =
          some (some (s.next + ptrWidth + size)) := by
        rw [q2]
        exact hslot1
      have hbox2 : s2.boxes (s.next + ptrWidth + size) = some ⟨1, some d⟩ := by
        rw [q3]
        congr 2
        omega
      refine ⟨s2, q1, hev2, ?_⟩
      refine ⟨_, release_to_zero s2 _ _ ⟨1, some d⟩ hslot2 hbox2 rfl, ?_⟩
      show s2.events ++ [(d, (RefCounted.create s size (some d)).2)] =
        s.events ++ [(d, (RefCounted.create s size (some d)).2)]
      rw [hev2]

theorem claim1_witness :
    ∃ s1, retainN (trill_allocateIndirectType (@initState Unit) 8 (some ())).1
        (trill_allocateIndirectType (@initState Unit) 8 (some ())).2 2 =
        .ok s1 () ∧
      ∃ s2, releaseN s1
          (trill_allocateIndirectType (@initState Unit) 8 (some ())).2 1 =
          .ok s2 () ∧ s2.events = [] ∧
        ∃ s3, RefCounted.release s2
            (trill_allocateIndirectType (@initState Unit) 8 (some ())).2 =
            .ok s3 () ∧ s3.events = [((), 8)] := by
  obtain ⟨hpre, s1, hs1, hrel, s2, hs2, hev2, s3, hs3, hev3⟩ :=
    claim1_destructor_once (@initState Unit) 8 () 2 (by norm_num)
      (by norm_num [uint32Max]) _ _ Prod.mk.eta.symm
  exact ⟨s1, hs1, s2, hs2, hev2, s3, hs3, hev3⟩

/-- C1 counterexample: with N = 4294967296 = 2 to the 32, the claim as stated
fails: the run of N retains aborts with the retain count overflow report
during the final retain, the releases never happen, and the destructor is
never invoked (the event trace at the abort is empty). -/
theorem claim1_counterexample :
    Res.fatalMsg
        (retainN (trill_allocateIndirectType (@initState Unit) 8 (some ())).1
          (trill_allocateIndirectType (@initState Unit) 8 (some ())).2
          4294967296) =
      some "retain count overflow" ∧
    Res.finalEvents
        (retainN (trill_allocateIndirectType (@initState Unit) 8 (some ())).1
          (trill_allocateIndirectType (@initState Unit) 8 (some ())).2
          4294967296) =
      some [] := by
  obtain ⟨hP, hslot, hbox, hev⟩ := create_live (@initState Unit) 8 (some ())
  obtain ⟨s', r1, r2, r3, r4, r5, r6, r7⟩ :=
    retainN_ok 4294967295 (trill_allocateIndirectType (@initState Unit) 8
      (some ())).1 (trill_allocateIndirectType (@initState Unit) 8 (some ())).2
      _ 0 (some ()) hslot hbox (by norm_num [uint32Max])
  have hslot' : s'.slot ((trill_allocateIndirectType (@initState Unit) 8
      (some ())).2 - ptrWidth) = some (some ((@initState Unit).next + ptrWidth + 8)) := by
    rw [r2]
    exact hslot
  have hbox' : s'.boxes ((@initState Unit).next + ptrWidth + 8) =
      some ⟨4294967295, some ()⟩ := by
    rw [r3]
  have hover : RefCounted.retain s'
      (trill_allocateIndirectType (@initState Unit) 8 (some ())).2 =
      .fatal s' .retainOverflow :=
    retain_overflow s' _ _ ⟨4294967295, some ()⟩ hslot' hbox'
      (by norm_num [uint32Max])
  have hsplit := retainN_split 4294967295 1
    (trill_allocateIndirectType (@initState Unit) 8 (some ())).1
    (trill_allocateIndirectType (@initState Unit) 8 (some ())).2
  have hnum : (4294967296 : Nat) = 4294967295 + 1 := by norm_num
  rw [hnum, hsplit, r1]
  simp only [retainN, hover]
  have hev' : s'.events = [] := r4.trans hev
  constructor
  · rfl
  · show some s'.events = some []
    rw [hev']

theorem claim2_witness :
    ∃ s', RefCounted.release (demoState 2) 8 = .ok s' () ∧
      s'.boxes 100 = some ⟨1, some ()⟩ ∧ s'.events = [] := by
  obtain ⟨s', h1, h2, h3, h4, h5⟩ :=
    (claim2_release_semantics (demoState 2) 8 100 ⟨2, some ()⟩ rfl rfl).2.1
      (by decide) (by decide)
  exact ⟨s', h1, h2, h4⟩

/-- C3: for every live object with a representable count, retain reports the
exact overflow message fatally, without mutating anything, when the count is
at the uint32_t maximum, and otherwise increments the count by exactly 1 with
no other side effect. -/
theorem claim3_retain_semantics (s : State δ) (v a : Nat) (b : RefCountBox δ)
    (hs : s.slot (v - ptrWidth) = some (some a)) (hb : s.boxes a = some b)
    (hrep : b.retainCount < uint32Mod) :
    (b.retainCount = uint32Max →
      RefCounted.retain s v = .fatal s .retainOverflow ∧
      FatalErr.message .retainOverflow = "retain count overflow") ∧
    (b.retainCount ≠ uint32Max →
      ∃ s', RefCounted.retain s v = .ok s' () ∧
        s'.boxes a = some { b with retainCount := b.retainCount + 1 } ∧
        s'.slot = s.slot ∧ s'.events = s.events ∧
        s'.outerLive = s.outerLive ∧ s'.next = s.next ∧
        ∀ x, x ≠ a → s'.boxes x = s.boxes x) := by
  refine ⟨fun hc => ⟨retain_overflow s v a b hs hb hc, rfl⟩, fun hc => ?_⟩
  have hmod : (b.retainCount + 1) % uint32Mod = b.retainCount + 1 := by
    apply Nat.mod_eq_of_lt
    unfold uint32Mod at *
    unfold uint32Max at hc
    omega
  refine ⟨_, retain_ok s v a b hs hb hc, ?_, rfl, rfl, rfl, rfl,
    fun x hx => Function.update_noteq hx _ s.boxes⟩
  simp [hmod]

theorem claim3_witness :
    RefCounted.retain (demoState 4294967295) 8 =
      .fatal (demoState 4294967295) .retainOverflow ∧
    ∃ s', RefCounted.retain (demoState 2) 8 = .ok s' () ∧
      s'.boxes 100 = some ⟨3, some ()⟩ := by
  constructor
  · exact ((claim3_retain_semantics (demoState 4294967295) 8 100
      ⟨4294967295, some ()⟩ rfl rfl (by norm_num [uint32Mod])).1
      (by norm_num [uint32Max])).1
  · obtain ⟨s', h1, h2, _⟩ :=
      (claim3_retain_semantics (demoState 2) 8 100 ⟨2, some ()⟩ rfl rfl
        (by norm_num [uint32Mod])).2 (by norm_num [uint32Max])
    exact ⟨s', h1, h2⟩

/-- C4: once a release has driven the count of a live object to 0, teardown
has run and the back-link slot holds the null sentinel; every subsequent
retain, release, isUniquelyReferenced or retainCount call on the payload
address reports the use-after-deallocation message, which embeds the payload
address, fatally and before mutating any state. -/
theorem claim4_use_after_free (s : State δ) (v a : Nat) (b : RefCountBox δ)
    (hs : s.slot (v - ptrWidth) = some (some a)) (hb : s.boxes a = some b)
    (hc : b.retainCount = 1) :
    ∃ s', RefCounted.release s v = .ok s' () ∧
      s'.slot (v - ptrWidth) = some none ∧
      trill_retain s' v = .fatal s' (.useAfterDealloc v) ∧
      trill_release s' v = .fatal s' (.useAfterDealloc v) ∧
      trill_isUniquelyReferenced s' v = .fatal s' (.useAfterDealloc v) ∧
      RefCounted.retainCount s' v = .fatal s' (.useAfterDealloc v) ∧
      FatalErr.message (.useAfterDealloc v) =
        "object (" ++ toString v ++ ") used after deallocation" := by
  refine ⟨_, release_to_zero s v a b hs hb hc, ?_⟩
  have hdead : (Function.update s.slot (v - ptrWidth) (some none)) (v - ptrWidth) =
      some none := Function.update_same _ _ s.slot
  obtain ⟨w1, w2, w3, w4⟩ := uaf_all_ops
    { s with
        boxes := Function.update s.boxes a none,
        slot := Function.update s.slot (v - ptrWidth) (some none),
        events := s.events ++
          (match b.deinit with | some d => [(d, v)] | none => []) } v hdead
  exact ⟨hdead, w1, w2, w3, w4, rfl⟩

theorem claim4_witness :
    ∃ s', RefCounted.release (demoState 1) 8 = .ok s' () ∧
      s'.slot (8 - ptrWidth) = some none ∧
      trill_retain s' 8 = .fatal s' (.useAfterDealloc 8) := by
  obtain ⟨s', h1, h2, h3, _⟩ :=
    claim4_use_after_free (demoState 1) 8 100 ⟨1, some ()⟩ rfl rfl rfl
  exact ⟨s', h1, h2, h3⟩

/-- C5: immediately after allocation, for every size and destructor argument,
the retain count of the fresh object is 0, and release at this point is the
fatal underflow report. -/
theorem claim5_fresh_object (s : State δ) (size : Nat) (d : Option δ)
    (s0 : State δ) (P : Nat)
    (h : trill_allocateIndirectType s size d = (s0, P)) :
    RefCounted.retainCount s0 P = .ok s0 0 ∧
    trill_release s0 P = .fatal s0 .releaseUnderflow := by
  have h1 : (RefCounted.create s size d).1 = s0 := congrArg Prod.fst h
  have h2 : (RefCounted.create s size d).2 = P := congrArg Prod.snd h
  subst h1
  subst h2
  obtain ⟨hP, hslot, hbox, hev⟩ := create_live s size d
  constructor
  · unfold RefCounted.retainCount
    rw [withLiveBox_live _ _ _ ⟨0, d⟩ hslot hbox]
  · unfold trill_release
    exact release_underflow _ _ _ ⟨0, d⟩ hslot hbox rfl

theorem claim5_witness :
    RefCounted.retainCount (trill_allocateIndirectType (@initState Unit) 8
        (some ())).1 (trill_allocateIndirectType (@initState Unit) 8 (some ())).2 =
      .ok (trill_allocateIndirectType (@initState Unit) 8 (some ())).1 0 ∧
    trill_release (trill_allocateIndirectType (@initState Unit) 8 (some ())).1
        (trill_allocateIndirectType (@initState Unit) 8 (some ())).2 =
      .fatal (trill_allocateIndirectType (@initState Unit) 8 (some ())).1
        .releaseUnderflow :=
  claim5_fresh_object initState 8 (some ()) _ _ rfl

/-- C6: for every live object, isUniquelyReferenced returns, without any
mutation, exactly the comparison of the count with 1: true iff the count is 1,
false for 0 and for any count of at least 2; the public wrapper returns 1 or 0
accordingly. -/
theorem claim6_uniquely_referenced (s : State δ) (v a : Nat) (b : RefCountBox δ)
    (hs : s.slot (v - ptrWidth) = some (some a)) (hb : s.boxes a = some b) :
    RefCounted.isUniquelyReferenced s v = .ok s (b.retainCount == 1) ∧
    ((b.retainCount == 1) = true ↔ b.retainCount = 1) ∧
    trill_isUniquelyReferenced s v = .ok s (if b.retainCount = 1 then 1 else 0) := by
  have h1 : RefCounted.isUniquelyReferenced s v = .ok s (b.retainCount == 1) := by
    unfold RefCounted.isUniquelyReferenced
    rw [withLiveBox_live s v a b hs hb]
  refine ⟨h1, beq_iff_eq, ?_⟩
  unfold trill_isUniquelyReferenced
  rw [h1]
  by_cases hc : b.retainCount = 1
  · simp [hc]
  · simp [hc]

theorem claim6_witness :
    RefCounted.isUniquelyReferenced (demoState 1) 8 = .ok (demoState 1) true ∧
    RefCounted.isUniquelyReferenced (demoState 2) 8 = .ok (demoState 2) false ∧
    RefCounted.isUniquelyReferenced (demoState 0) 8 = .ok (demoState 0) false := by
  refine ⟨?_, ?_, ?_⟩
  · exact (claim6_uniquely_referenced (demoState 1) 8 100 ⟨1, some ()⟩ rfl rfl).1
  · exact (claim6_uniquely_referenced (demoState 2) 8 100 ⟨2, some ()⟩ rfl rfl).1
  · exact (claim6_uniquely_referenced (demoState 0) 8 100 ⟨0, some ()⟩ rfl rfl).1

/-- C7: round trip of the addressing layer: the payload address returned by
allocation, offset back by the pointer width, is a slot holding the address of
exactly the box the allocation constructed: count 0 and the destructor given
at allocation. -/
theorem claim7_round_trip (s : State δ) (size : Nat) (d : Option δ)
    (s0 : State δ) (P : Nat)
    (h : trill_allocateIndirectType s size d = (s0, P)) :
    s0.slot (RefCounted.boxPtr P) = some (some (s.next + ptrWidth + size)) ∧
    s0.boxes (s.next + ptrWidth + size) = some ⟨0, d⟩ := by
  have h1 : (RefCounted.create s size d).1 = s0 := congrArg Prod.fst h
  have h2 : (RefCounted.create s size d).2 = P := congrArg Prod.snd h
  subst h1
  subst h2
  obtain ⟨hP, hslot, hbox, hev⟩ := create_live s size d
  exact ⟨hslot, hbox⟩

theorem claim7_witness :
    (trill_allocateIndirectType (@initState Unit) 8 (some ())).1.slot
        (RefCounted.boxPtr
          (trill_allocateIndirectType (@initState Unit) 8 (some ())).2) =
      some (some ((@initState Unit).next + ptrWidth + 8)) ∧
    (trill_allocateIndirectType (@initState Unit) 8 (some ())).1.boxes
        ((@initState Unit).next + ptrWidth + 8) = some ⟨0, some ()⟩ :=
  claim7_round_trip initState 8 (some ()) _ _ rfl

/-- C8: the defensive teardown fatal report with count still positive is
unreachable: a fatal outcome of release is only ever the use-after-free report
or the underflow report, never the teardown invariant violation, because
release invokes dealloc only after decrementing the count to exactly 0. -/
theorem claim8_teardown_unreachable (s : State δ) (v : Nat) (s' : State δ)
    (e : FatalErr) (h : RefCounted.release s v = .fatal s' e) :
    e ≠ .deallocWithPositiveCount ∧
    (e = .useAfterDealloc v ∨ e = .releaseUnderflow) := by
  have hc := release_fatal_cases s v s' e h
  refine ⟨?_, hc⟩
  rcases hc with rfl | rfl
  · simp
  · simp

theorem claim8_witness :
    FatalErr.releaseUnderflow ≠ FatalErr.deallocWithPositiveCount :=
  (claim8_teardown_unreachable (demoState 0) 8 (demoState 0) .releaseUnderflow
    (release_underflow (demoState 0) 8 100 ⟨0, some ()⟩ rfl rfl rfl)).1

/-- C9: teardown frames its effects: it frees only the box header and writes
the null sentinel into the back-link slot; the outer allocation stays exactly
as allocated, every other slot and box is untouched, and the slot itself stays
readable and holds null. -/
theorem claim9_teardown_frame (s : State δ) (v a : Nat) (b : RefCountBox δ)
    (hs : s.slot (v - ptrWidth) = some (some a)) (hb : s.boxes a = some b)
    (hc : b.retainCount = 0) :
    ∃ s', RefCounted.dealloc s v = .ok s' () ∧
      s'.boxes a = none ∧
      s'.slot (v - ptrWidth) = some none ∧
      s'.outerLive = s.outerLive ∧
      (∀ p, p ≠ v - ptrWidth → s'.slot p = s.slot p) ∧
      (∀ x, x ≠ a → s'.boxes x = s.boxes x) ∧
      s'.next = s.next ∧
      s'.events = s.events ++
        (match b.deinit with | some d => [(d, v)] | none => []) := by
  refine ⟨_, dealloc_ok s v a b hs hb hc, ?_, ?_, rfl,
    fun p hp => Function.update_noteq hp _ s.slot,
    fun x hx => Function.update_noteq hx _ s.boxes, rfl, rfl⟩
  · exact Function.update_same a _ s.boxes
  · exact Function.update_same _ _ s.slot

theorem claim9_witness :
    ∃ s', RefCounted.dealloc (demoState 0) 8 = .ok s' () ∧
      s'.boxes 100 = none ∧ s'.slot (8 - ptrWidth) = some none ∧
      s'.outerLive = (demoState 0).outerLive := by
  obtain ⟨s', h1, h2, h3, h4, _⟩ :=
    claim9_teardown_frame (demoState 0) 8 100 ⟨0, some ()⟩ rfl rfl rfl
  exact ⟨s', h1, h2, h3, h4⟩

/-! Lemmas about the interleaving machine. -/

theorem holding_ready : TState.ready.holding = false := rfl

theorem holding_locked : TState.locked.holding = true := rfl

theorem holding_gotValue (c : Nat) : (TState.gotValue c).holding = true := rfl

theorem holding_wrote : TState.wrote.holding = true := rfl

theorem holding_done : TState.done.holding = false := rfl

theorem isDone_ready : TState.ready.isDone = false := rfl

theorem isDone_locked : TState.locked.isDone = false := rfl

theorem isDone_gotValue (c : Nat) : (TState.gotValue c).isDone = false := rfl

theorem isDone_wrote : TState.wrote.isDone = false := rfl

theorem isDone_done : TState.done.isDone = true := rfl

theorem side_counts_zero {l r : List TState} {t : TState} (ht : t.holding = true)
    (h : holdCount (l ++ t :: r) = 1) :
    List.countP (fun u => u.holding) l = 0 ∧
    List.countP (fun u => u.holding) r = 0 := by
  simp only [holdCount, List.countP_append, List.countP_cons, ht,
    eq_self_iff_true, if_true] at h
  omega

theorem side_counts_zero0 {l r : List TState} {t : TState} (ht : t.holding = false)
    (h : holdCount (l ++ t :: r) = 0) :
    List.countP (fun u => u.holding) l = 0 ∧
    List.countP (fun u => u.holding) r = 0 := by
  simp only [holdCount, List.countP_append, List.countP_cons, ht,
    Bool.false_eq_true, if_false] at h
  omega

theorem only_middle_holds {l r : List TState}
    (hl : List.countP (fun u => u.holding) l = 0)
    (hr : List.countP (fun u => u.holding) r = 0) :
    ∀ (m t : TState), t ∈ l ++ m :: r → t.holding = true → t = m := by
  intro m t ht hth
  rcases List.mem_append.mp ht with h1 | h2
  · exact absurd hth (by simpa using List.countP_eq_zero.mp hl t h1)
  · rcases List.mem_cons.mp h2 with h3 | h4
    · exact h3
    · exact absurd hth (by simpa using List.countP_eq_zero.mp hr t h4)

theorem doneCount_middle (l r : List TState) (t t' : TState)
    (h : t.isDone = t'.isDone) :
    doneCount (l ++ t :: r) = doneCount (l ++ t' :: r) := by
  simp only [doneCount, List.countP_append, List.countP_cons, h]

theorem Inv_step {T : Nat} (hT : T < uint32Max) {c c' : Cfg}
    (hstep : Step c c') (hinv : Inv T c) : Inv T c' := by
  have hmaxmod : uint32Max < uint32Mod := by norm_num [uint32Max, uint32Mod]
  cases hstep with
  | acquire cnt l r =>
    obtain ⟨hf, hlen, hhold1, hhold0, hfree, hlock, hgot, hwrote⟩ := hinv
    dsimp only at hf hlen hhold1 hhold0 hfree hlock hgot hwrote
    have h0 := side_counts_zero0 (t := TState.ready) rfl (hhold0 rfl)
    have hdc := doneCount_middle l r TState.locked TState.ready rfl
    refine ⟨rfl, ?_, ?_, ?_, ?_, ?_, ?_, ?_⟩
    · simp only [List.length_append, List.length_cons] at hlen ⊢
      exact hlen
    · intro _
      simp [holdCount, List.countP_append, List.countP_cons, holding_locked,
        h0.1, h0.2]
    · intro h
      simp at h
    · intro h
      simp at h
    · intro t ht heq
      show cnt = 1 + doneCount (l ++ TState.locked :: r)
      rw [hdc]
      exact hfree rfl
    · intro t ht v heq
      have hth : t.holding = true := by rw [heq]; rfl
      have hm := only_middle_holds h0.1 h0.2 TState.locked t ht hth
      rw [heq] at hm
      nomatch hm
    · intro t ht heq
      have hth : t.holding = true := by rw [heq]; rfl
      have hm := only_middle_holds h0.1 h0.2 TState.locked t ht hth
      rw [heq] at hm
      nomatch hm
  | read cnt l r =>
    obtain ⟨hf, hlen, hhold1, hhold0, hfree, hlock, hgot, hwrote⟩ := hinv
    dsimp only at hf hlen hhold1 hhold0 hfree hlock hgot hwrote
    have h0 := side_counts_zero (t := TState.locked) rfl (hhold1 rfl)
    have hcnt : cnt = 1 + doneCount (l ++ TState.locked :: r) :=
      hlock TState.locked
        (List.mem_append.mpr (Or.inr (List.mem_cons_self _ _))) rfl
    have hdc := doneCount_middle l r (TState.gotValue cnt) TState.locked rfl
    refine ⟨rfl, ?_, ?_, ?_, ?_, ?_, ?_, ?_⟩
    · simp only [List.length_append, List.length_cons] at hlen ⊢
      exact hlen
    · intro _
      simp [holdCount, List.countP_append, List.countP_cons, holding_gotValue,
        h0.1, h0.2]
    · intro h
      simp at h
    · intro h
      simp at h
    · intro t ht heq
      have hth : t.holding = true := by rw [heq]; rfl
      have hm := only_middle_holds h0.1 h0.2 (TState.gotValue cnt) t ht hth
      rw [heq] at hm
      nomatch hm
    · intro t ht v heq
      have hth : t.holding = true := by rw [heq]; rfl
      have hm := only_middle_holds h0.1 h0.2 (TState.gotValue cnt) t ht hth
      rw [heq] at hm
      injection hm with hv
      subst hv
      refine ⟨rfl, ?_⟩
      show v = 1 + doneCount (l ++ TState.gotValue v :: r)
      rw [hdc]
      exact hcnt
    · intro t ht heq
      have hth : t.holding = true := by rw [heq]; rfl
      have hm := only_middle_holds h0.1 h0.2 (TState.gotValue cnt) t ht hth
      rw [heq] at hm
      nomatch hm
  | writeOk cnt v l r hv =>
    obtain ⟨hf, hlen, hhold1, hhold0, hfree, hlock, hgot, hwrote⟩ := hinv
    dsimp only at hf hlen hhold1 hhold0 hfree hlock hgot hwrote
    have h0 := side_counts_zero (t := TState.gotValue v) rfl (hhold1 rfl)
    have hgmid := hgot (TState.gotValue v)
      (List.mem_append.mpr (Or.inr (List.mem_cons_self _ _))) v rfl
    have hdle : doneCount (l ++ TState.gotValue v :: r) ≤
        List.length l + List.length r := by
      have g1 : List.countP (fun u => u.isDone) l ≤ List.length l :=
        List.countP_le_length _
      have g2 : List.countP (fun u => u.isDone) r ≤ List.length r :=
        List.countP_le_length _
      simp [doneCount, List.countP_append, List.countP_cons, isDone_gotValue]
      omega
    have hlen' : List.length l + (List.length r + 1) = T := by
      simpa only [List.length_append, List.length_cons] using hlen
    have hvT : v ≤ T := by omega
    have hmod : (v + 1) % uint32Mod = v + 1 := by
      apply Nat.mod_eq_of_lt
      omega
    have hdc := doneCount_middle l r TState.wrote (TState.gotValue v) rfl
    refine ⟨rfl, ?_, ?_, ?_, ?_, ?_, ?_, ?_⟩
    · simp only [List.length_append, List.length_cons] at hlen ⊢
      exact hlen
    · intro _
      simp [holdCount, List.countP_append, List.countP_cons, holding_wrote,
        h0.1, h0.2]
    · intro h
      simp at h
    · intro h
      simp at h
    · intro t ht heq
      have hth : t.holding = true := by rw [heq]; rfl
      have hm := only_middle_holds h0.1 h0.2 TState.wrote t ht hth
      rw [heq] at hm
      nomatch hm
    · intro t ht w heq
      have hth : t.holding = true := by rw [heq]; rfl
      have hm := only_middle_holds h0.1 h0.2 TState.wrote t ht hth
      rw [heq] at hm
      nomatch hm
    · intro t ht heq
      show (v + 1) % uint32Mod = 2 + doneCount (l ++ TState.wrote :: r)
      rw [hmod, hdc]
      omega
  | overflow cnt l r =>
    obtain ⟨hf, hlen, hhold1, hhold0, hfree, hlock, hgot, hwrote⟩ := hinv
    dsimp only at hf hlen hhold1 hhold0 hfree hlock hgot hwrote
    have hgmid := hgot (TState.gotValue uint32Max)
      (List.mem_append.mpr (Or.inr (List.mem_cons_self _ _))) uint32Max rfl
    have hdle : doneCount (l ++ TState.gotValue uint32Max :: r) ≤
        List.length l + List.length r := by
      have g1 : List.countP (fun u => u.isDone) l ≤ List.length l :=
        List.countP_le_length _
      have g2 : List.countP (fun u => u.isDone) r ≤ List.length r :=
        List.countP_le_length _
      simp [doneCount, List.countP_append, List.countP_cons, isDone_gotValue]
      omega
    have hlen' : List.length l + (List.length r + 1) = T := by
      simpa only [List.length_append, List.length_cons] using hlen
    omega
  | unlock cnt l r =>
    obtain ⟨hf, hlen, hhold1, hhold0, hfree, hlock, hgot, hwrote⟩ := hinv
    dsimp only at hf hlen hhold1 hhold0 hfree hlock hgot hwrote
    have h0 := side_counts_zero (t := TState.wrote) rfl (hhold1 rfl)
    have hcnt : cnt = 2 + doneCount (l ++ TState.wrote :: r) :=
      hwrote TState.wrote
        (List.mem_append.mpr (Or.inr (List.mem_cons_self _ _))) rfl
    have hdc : doneCount (l ++ TState.done :: r) =
        doneCount (l ++ TState.wrote :: r) + 1 := by
      simp [doneCount, List.countP_append, List.countP_cons, isDone_done,
        isDone_wrote]
      omega
    refine ⟨rfl, ?_, ?_, ?_, ?_, ?_, ?_, ?_⟩
    · simp only [List.length_append, List.length_cons] at hlen ⊢
      exact hlen
    · intro h
      simp at h
    · intro _
      simp [holdCount, List.countP_append, List.countP_cons, holding_done,
        h0.1, h0.2]
    · intro _
      show cnt = 1 + doneCount (l ++ TState.done :: r)
      rw [hdc]
      omega
    · intro t ht heq
      have hth : t.holding = true := by rw [heq]; rfl
      have hm := only_middle_holds h0.1 h0.2 TState.done t ht hth
      rw [heq] at hm
      nomatch hm
    · intro t ht v heq
      have hth : t.holding = true := by rw [heq]; rfl
      have hm := only_middle_holds h0.1 h0.2 TState.done t ht hth
      rw [heq] at hm
      nomatch hm
    · intro t ht heq
      have hth : t.holding = true := by rw [heq]; rfl
      have hm := only_middle_holds h0.1 h0.2 TState.done t ht hth
      rw [heq] at hm
      nomatch hm

theorem Inv_init (T : Nat) : Inv T (initCfg T) := by
  refine ⟨rfl, by simp [initCfg], ?_, ?_, ?_, ?_, ?_, ?_⟩
  · intro h
    simp [initCfg] at h
  · intro _
    unfold holdCount initCfg
    apply List.countP_eq_zero.mpr
    intro u hu
    rw [(List.mem_replicate.mp hu).2]
    simp [TState.holding]
  · intro _
    have hz : doneCount (initCfg T).threads = 0 := by
      unfold doneCount initCfg
      apply List.countP_eq_zero.mpr
      intro u hu
      rw [(List.mem_replicate.mp hu).2]
      simp [TState.isDone]
    rw [hz]
    rfl
  · intro t ht heq
    have h2 := (List.mem_replicate.mp ht).2
    rw [h2] at heq
    nomatch heq
  · intro t ht v heq
    have h2 := (List.mem_replicate.mp ht).2
    rw [h2] at heq
    nomatch heq
  · intro t ht heq
    have h2 := (List.mem_replicate.mp ht).2
    rw [h2] at heq
    nomatch heq

theorem Inv_reaches {T : Nat} (hT : T < uint32Max) {c : Cfg}
    (h : Reaches (initCfg T) c) : Inv T c := by
  induction h with
  | refl => exact Inv_init T
  | tail hsteps hstep ih => exact Inv_step hT hstep ih

/-- C10 (amended): with T < 4294967295 independent threads each calling retain
once on a freshly allocated, already-once-retained object, every interleaving
permitted by the mutex is free of fatal reports, and in every interleaving in
which all threads have finished, each call has incremented the count exactly
once: the final count is 1 + T. (For T = 4294967295 an interleaving reaches
the retain count overflow report instead, see the counterexample.) -/
theorem claim10_no_lost_updates (T : Nat) (hT : T < uint32Max) (c : Cfg)
    (hr : Reaches (initCfg T) c) :
    c.fatal = false ∧
    ((∀ t ∈ c.threads, t = TState.done) → c.retainCount = 1 + T) := by
  obtain ⟨hf, hlen, hhold1, hhold0, hfree, hlock, hgot, hwrote⟩ :=
    Inv_reaches hT hr
  refine ⟨hf, fun hdone => ?_⟩
  have hh0 : holdCount c.threads = 0 := by
    unfold holdCount
    apply List.countP_eq_zero.mpr
    intro u hu
    rw [hdone u hu]
    simp [TState.holding]
  cases hlk : c.lockHeld with
  | true =>
    have h1 := hhold1 hlk
    omega
  | false =>
    have hcnt := hfree hlk
    have hdc : doneCount c.threads = T := by
      unfold doneCount
      rw [← hlen]
      apply List.countP_eq_length.mpr
      intro a ha
      rw [hdone a ha]
      rfl
    omega

theorem claim10_witness :
    (⟨3, false, [TState.done, TState.done], false⟩ : Cfg).fatal = false ∧
    (⟨3, false, [TState.done, TState.done], false⟩ : Cfg).retainCount = 1 + 2 := by
  have hr : Reaches (initCfg 2) ⟨3, false, [TState.done, TState.done], false⟩ := by
    refine Relation.ReflTransGen.head (Step.acquire 1 [] [TState.ready]) ?_
    refine Relation.ReflTransGen.head (Step.read 1 [] [TState.ready]) ?_
    refine Relation.ReflTransGen.head
      (Step.writeOk 1 1 [] [TState.ready] (by norm_num [uint32Max])) ?_
    refine Relation.ReflTransGen.head
      (Step.unlock ((1 + 1) % uint32Mod) [] [TState.ready]) ?_
    refine Relation.ReflTransGen.head
      (Step.acquire ((1 + 1) % uint32Mod) [TState.done] []) ?_
    refine Relation.ReflTransGen.head
      (Step.read ((1 + 1) % uint32Mod) [TState.done] []) ?_
    refine Relation.ReflTransGen.head
      (Step.writeOk ((1 + 1) % uint32Mod) ((1 + 1) % uint32Mod) [TState.done] []
        (by norm_num [uint32Max, uint32Mod])) ?_
    refine Relation.ReflTransGen.head
      (Step.unlock (((1 + 1) % uint32Mod + 1) % uint32Mod) [TState.done] []) ?_
    have hc : (((1 + 1) % uint32Mod + 1) % uint32Mod : Nat) = 3 := by
      norm_num [uint32Mod]
    rw [hc]
    exact Relation.ReflTransGen.refl
  have hres := claim10_no_lost_updates 2 (by norm_num [uint32Max]) _ hr
  refine ⟨hres.1, hres.2 ?_⟩
  intro t ht
  rcases List.mem_cons.mp ht with h1 | h2
  · exact h1
  · rcases List.mem_cons.mp h2 with h3 | h4
    · exact h3
    · nomatch h4

theorem seqReach (T : Nat) : ∀ j, j ≤ T → j < uint32Max →
    Reaches (initCfg T)
      { retainCount := 1 + j, lockHeld := false,
        threads := List.replicate j TState.done ++
          List.replicate (T - j) TState.ready,
        fatal := false } := by
  intro j
  induction j with
  | zero =>
    intro _ _
    exact Relation.ReflTransGen.refl
  | succ j ih =>
    intro hj hmax
    have hmaxmod : uint32Max < uint32Mod := by norm_num [uint32Max, uint32Mod]
    have hreach := ih (by omega) (by omega)
    have hTj : T - j = (T - (j + 1)) + 1 := by omega
    rw [hTj, List.replicate_succ] at hreach
    refine hreach.trans ?_
    refine Relation.ReflTransGen.head
      (Step.acquire (1 + j) (List.replicate j TState.done)
        (List.replicate (T - (j + 1)) TState.ready)) ?_
    refine Relation.ReflTransGen.head
      (Step.read (1 + j) (List.replicate j TState.done)
        (List.replicate (T - (j + 1)) TState.ready)) ?_
    refine Relation.ReflTransGen.head
      (Step.writeOk (1 + j) (1 + j) (List.replicate j TState.done)
        (List.replicate (T - (j + 1)) TState.ready) (by omega)) ?_
    refine Relation.ReflTransGen.head
      (Step.unlock ((1 + j + 1) % uint32Mod) (List.replicate j TState.done)
        (List.replicate (T - (j + 1)) TState.ready)) ?_
    have hmod2 : (1 + j + 1) % uint32Mod = 1 + (j + 1) := by
      apply Nat.mod_eq_of_lt
      omega
    have hlist : List.replicate j TState.done ++ TState.done ::
        List.replicate (T - (j + 1)) TState.ready =
        List.replicate (j + 1) TState.done ++
          List.replicate (T - (j + 1)) TState.ready := by
      rw [List.replicate_succ', List.append_assoc]
      rfl
    rw [hmod2, hlist]

/-- C10 counterexample: with T = 4294967295 threads the claim as stated fails:
the schedule that runs the threads one after the other drives the count to the
uint32_t maximum after 4294967294 threads, and the next thread reads that
value and reaches the retain count overflow fatal report, so not every call
increments the count and no all-done configuration with count 1 + T is
reached. -/
theorem claim10_counterexample :
    Reaches (initCfg 4294967295) overflowCfg ∧ overflowCfg.fatal = true := by
  constructor
  · have hreach := seqReach 4294967295 4294967294 (by norm_num)
      (by norm_num [uint32Max])
    have e1 : (1 : Nat) + 4294967294 = uint32Max := by norm_num [uint32Max]
    have e2 : (4294967295 : Nat) - 4294967294 = 1 := by norm_num
    rw [e1, e2] at hreach
    have e3 : List.replicate 1 TState.ready = [TState.ready] := rfl
    rw [e3] at hreach
    refine hreach.trans ?_
    refine Relation.ReflTransGen.head
      (Step.acquire uint32Max (List.replicate 4294967294 TState.done) []) ?_
    refine Relation.ReflTransGen.head
      (Step.read uint32Max (List.replicate 4294967294 TState.done) []) ?_
    refine Relation.ReflTransGen.head
      (Step.overflow uint32Max (List.replicate 4294967294 TState.done) []) ?_
    exact Relation.ReflTransGen.refl
  · rfl

end Trill
